import Mathlib

/-!
Verification of the go-rps library: a generic option-applier (`rpsutil.Build`),
a fluent HTTP-response builder (`httpresponse.HTTPResponseBuilder`), and the
custom JSON serializer `HTTPResponseOptions.MarshalJSON` that merges the
open-ended `Extra` metadata map into the top level of the serialized object.

The embedding models Go's `encoding/json` output at the level of JSON values
(`JValue`) and rendered strings.  Struct encoding emits fields in declaration
order (honouring `omitempty`); map encoding emits keys in sorted order, as
Go's `encoding/json` does.  The `json.Unmarshal`-into-`map[string]interface`
step of `MarshalJSON` is modelled by `jnorm`: nested objects decode to maps
(re-marshalled with sorted keys at every level) and numbers decode to
`float64`, rounding integers to 53 significant bits (ties to even).  JSON
numbers are carried as exact integers (`Int`), and a rounded number renders as
its exact decimal form — which coincides with Go's shortest-decimal rendering
for magnitudes up to `2 ^ 53`.
-/

/-- A JSON value as produced by Go's `encoding/json`. -/
inductive JValue where
  | null : JValue
  | bool (b : Bool) : JValue
  | num (n : Int) : JValue
  | str (s : String) : JValue
  | arr (elems : List JValue) : JValue
  | obj (fields : List (String × JValue)) : JValue

/-- Lower-case hexadecimal digit, as used by Go's `\u00XX` escapes. -/
def hexDigit (n : Nat) : Char :=
  if n < 10 then Char.ofNat (48 + n) else Char.ofNat (87 + n)

/-- Escape one character the way Go's `encoding/json` string encoder does
(with the default HTML escaping turned on). -/
def escapeJChar (c : Char) : String :=
  if c = '"' then "\\\""
  else if c = '\\' then "\\\\"
  else if c = '\n' then "\\n"
  else if c = '\r' then "\\r"
  else if c = '\t' then "\\t"
  else if c = '<' then "\\u003c"
  else if c = '>' then "\\u003e"
  else if c = '&' then "\\u0026"
  else if c.toNat < 32 then
    "\\u00" ++ String.singleton (hexDigit (c.toNat / 16)) ++ String.singleton (hexDigit (c.toNat % 16))
  else if c.toNat = 8232 then "\\u2028"
  else if c.toNat = 8233 then "\\u2029"
  else String.singleton c

/-- Escape a whole string for JSON output. -/
def escapeJString (s : String) : String :=
  s.toList.foldl (fun acc c => acc ++ escapeJChar c) ""

/-- Render a JSON string literal, including the surrounding quotes. -/
def renderJString (s : String) : String :=
  "\"" ++ escapeJString s ++ "\""

mutual

/-- Render a JSON value to its compact textual form, as `json.Marshal` does. -/
def render : JValue → String
  | JValue.null => "null"
  | JValue.bool true => "true"
  | JValue.bool false => "false"
  | JValue.num n => toString n
  | JValue.str s => renderJString s
  | JValue.arr xs => "[" ++ renderElems xs ++ "]"
  | JValue.obj fs => "\x7b" ++ renderFields fs ++ "\x7d"

/-- Render the comma-separated elements of a JSON array. -/
def renderElems : List JValue → String
  | [] => ""
  | [x] => render x
  | x :: y :: rest => render x ++ "," ++ renderElems (y :: rest)

/-- Render the comma-separated `"key":value` fields of a JSON object. -/
def renderFields : List (String × JValue) → String
  | [] => ""
  | [(k, v)] => renderJString k ++ ":" ++ render v
  | (k, v) :: q :: rest => renderJString k ++ ":" ++ render v ++ "," ++ renderFields (q :: rest)

end

/-- Lexicographic order on character lists by code point.  For valid UTF-8
this coincides with Go's byte-wise string order (UTF-8 preserves code-point
order), i.e. with the order `sort.Strings` uses. -/
def charListLe : List Char → List Char → Bool
  | [], _ => true
  | _ :: _, [] => false
  | a :: as, b :: bs =>
    if a.toNat < b.toNat then true
    else if b.toNat < a.toNat then false
    else charListLe as bs

/-- Go's string order, as used by `sort.Strings` on the map keys. -/
def strLe (a b : String) : Bool :=
  charListLe a.toList b.toList

/-- Insert a key/value pair into a list sorted by key (Go sorts map keys with
`sort.Strings` before emitting them). -/
def insertSortedKV (p : String × JValue) : List (String × JValue) → List (String × JValue)
  | [] => [p]
  | q :: rest => if strLe p.1 q.1 then p :: q :: rest else q :: insertSortedKV p rest

/-- Sort an association list by key: the order in which `encoding/json`
emits the entries of a `map[string]...`. -/
def sortKV (m : List (String × JValue)) : List (String × JValue) :=
  m.foldr insertSortedKV []

/-- A Go value that can sit in the `Data`/`Code`/`Total` fields or in the
`Extra` map of an envelope.  `gNull` is a nil interface/pointer/map/slice;
`gObj` is a `map[string]...`; `gStruct` is a struct (whose fields encode in
declaration order and which `omitempty` never drops). -/
inductive GoVal where
  | gNull : GoVal
  | gBool (b : Bool) : GoVal
  | gInt (n : Int) : GoVal
  | gStr (s : String) : GoVal
  | gArr (elems : List GoVal) : GoVal
  | gObj (fields : List (String × GoVal)) : GoVal
  | gStruct (fields : List (String × GoVal)) : GoVal

/-- Go `encoding/json` `isEmptyValue`: decides whether a field tagged
`omitempty` is dropped. -/
def goIsEmpty : GoVal → Bool
  | GoVal.gNull => true
  | GoVal.gBool b => !b
  | GoVal.gInt n => n == 0
  | GoVal.gStr s => s == ""
  | GoVal.gArr xs => xs.isEmpty
  | GoVal.gObj fs => fs.isEmpty
  | GoVal.gStruct _ => false

mutual

/-- Encode a Go value as a JSON value, the way `json.Marshal` does:
maps sort their keys, structs keep declaration order. -/
def encodeGoVal : GoVal → JValue
  | GoVal.gNull => JValue.null
  | GoVal.gBool b => JValue.bool b
  | GoVal.gInt n => JValue.num n
  | GoVal.gStr s => JValue.str s
  | GoVal.gArr xs => JValue.arr (encodeGoValList xs)
  | GoVal.gObj fs => JValue.obj (sortKV (encodeGoValKVs fs))
  | GoVal.gStruct fs => JValue.obj (encodeGoValKVs fs)

/-- Encode a list of Go values elementwise. -/
def encodeGoValList : List GoVal → List JValue
  | [] => []
  | x :: xs => encodeGoVal x :: encodeGoValList xs

/-- Encode the entries of a map or struct elementwise. -/
def encodeGoValKVs : List (String × GoVal) → List (String × JValue)
  | [] => []
  | (k, v) :: fs => (k, encodeGoVal v) :: encodeGoValKVs fs

end

/-- The response envelope `httpresponse.HTTPResponseOptions[C, D, E, T]`.
Field order matches the Go struct declaration: `Success` (tag `success`),
`Message` (tag `message`), `Code` (tag `code,omitempty`), `Data`
(tag `data,omitempty`), `Total` (tag `total,omitempty`), `Extra` (tag `-`). -/
structure HTTPResponseOptions (C D E T : Type) where
  Success : Bool
  Message : String
  Code : C
  Data : D
  Total : T
  Extra : E

instance (C D E T : Type) [Inhabited C] [Inhabited D] [Inhabited E] [Inhabited T] :
    Inhabited (HTTPResponseOptions C D E T) :=
  ⟨⟨false, "", default, default, default, default⟩⟩

/-- The `Extra` field's Go type `E map[string]any`: `none` is a nil map,
`some entries` a non-nil map with the given (distinct-keyed) entries. -/
abbrev GoExtra : Type := Option (List (String × GoVal))

/-- The envelope instantiated at the modelled Go value domain, as used by
`MarshalJSON` (the serializer is generic, so `Code`, `Data` and `Total` are
arbitrary encodable Go values here). -/
abbrev EnvG : Type := HTTPResponseOptions GoVal GoVal GoExtra GoVal

/-- The field list produced by step 1 of `MarshalJSON`: `json.Marshal` of the
struct literal holding only the five fixed fields.  `success` and `message`
carry no `omitempty` and always appear; `code`, `data` and `total` are dropped
when empty; `Extra` is tagged `json:"-"` and never appears. -/
def marshalCoreFields (o : EnvG) : List (String × JValue) :=
  [("success", JValue.bool o.Success), ("message", JValue.str o.Message)]
    ++ (if goIsEmpty o.Code then [] else [("code", encodeGoVal o.Code)])
    ++ (if goIsEmpty o.Data then [] else [("data", encodeGoVal o.Data)])
    ++ (if goIsEmpty o.Total then [] else [("total", encodeGoVal o.Total)])

/-- `rm[k] = v` on an association list modelling `map[string]interface`:
replace the binding of `k` if present, otherwise add one. -/
def insertKV (m : List (String × JValue)) (k : String) (v : JValue) :
    List (String × JValue) :=
  match m with
  | [] => [(k, v)]
  | (k2, v2) :: rest => if k2 = k then (k, v) :: rest else (k2, v2) :: insertKV rest k v

/-- Step 3 of `MarshalJSON`: `if Extra != nil, for k, v := range Extra, rm[k] = v`.
A nil map is skipped; a non-nil map has its entries written into `rm`. -/
def mergeExtra (rm : List (String × JValue)) (extra : GoExtra) :
    List (String × JValue) :=
  match extra with
  | none => rm
  | some ex => ex.foldl (fun m kv => insertKV m kv.1 (encodeGoVal kv.2)) rm

/-- Round a natural number to the nearest `float64`-representable value
(53 significant bits, ties to even), as `json.Unmarshal` does when it decodes
a JSON number into an `interface` value.  Numbers up to `2 ^ 53` are exact. -/
def f64roundNat (m : Nat) : Nat :=
  if m < 2 ^ 53 then m
  else
    let bits := Nat.log2 m + 1
    let excess := bits - 53
    let q := m / 2 ^ excess
    let r := m % 2 ^ excess
    let half := 2 ^ (excess - 1)
    let q2 := if r < half then q else if half < r then q + 1
      else if q % 2 = 0 then q else q + 1
    q2 * 2 ^ excess

/-- Round an integer to the nearest `float64` value (sign-symmetric). -/
def f64round (n : Int) : Int :=
  if n < 0 then -(f64roundNat n.natAbs : Nat) else (f64roundNat n.natAbs : Nat)

mutual

/-- The effect on a JSON value of `json.Unmarshal` into `interface` followed
by `json.Marshal`: objects decode to `map[string]interface` and are re-emitted
with sorted keys (at every nesting level), numbers decode to `float64` and are
rounded to 53 significant bits, everything else survives unchanged.  The
decimal rendering of a rounded number is modelled as that integer's exact
decimal form, which agrees with Go's shortest-decimal output for magnitudes
up to `2 ^ 53`. -/
def jnorm : JValue → JValue
  | JValue.null => JValue.null
  | JValue.bool b => JValue.bool b
  | JValue.num n => JValue.num (f64round n)
  | JValue.str s => JValue.str s
  | JValue.arr xs => JValue.arr (jnormList xs)
  | JValue.obj fs => JValue.obj (sortKV (jnormKVs fs))

/-- Normalize the elements of a decoded JSON array. -/
def jnormList : List JValue → List JValue
  | [] => []
  | x :: xs => jnorm x :: jnormList xs

/-- Normalize the values of a decoded JSON object's field list (the keys are
untouched; any re-ordering happens when the enclosing map is re-marshalled). -/
def jnormKVs : List (String × JValue) → List (String × JValue)
  | [] => []
  | (k, v) :: fs => (k, jnorm v) :: jnormKVs fs

end

/-- `MarshalJSON` with the receiver threaded through explicitly, mirroring the
Go body statement by statement: marshal the fixed fields; unmarshal the result
into `rm : map[string]interface` (each field value decodes to its generic
interface form, so nested objects become maps whose keys the final marshal
emits sorted, and numbers become `float64` — the `jnormKVs` pass); merge
`Extra` into `rm` (those values are inserted as-is and marshal natively);
marshal `rm` with its top-level keys sorted.  The Go body never writes through
the receiver pointer, so the returned receiver state is the input one. -/
def MarshalJSONw (httpResponseOptions : EnvG) : String × EnvG :=
  let r := marshalCoreFields httpResponseOptions
  let rm := jnormKVs r
  let rm2 := mergeExtra rm httpResponseOptions.Extra
  (render (JValue.obj (sortKV rm2)), httpResponseOptions)

/-- The bytes returned by `HTTPResponseOptions.MarshalJSON`. -/
def MarshalJSON (httpResponseOptions : EnvG) : String :=
  (MarshalJSONw httpResponseOptions).1

/-- The field list of the object `MarshalJSON` renders. -/
def marshalOutputFields (o : EnvG) : List (String × JValue) :=
  sortKV (mergeExtra (jnormKVs (marshalCoreFields o)) o.Extra)

/-- The plain structural (fixed-field-only) encoding of the envelope: what
`json.Marshal` would produce from the struct without the custom marshaler
(fields in declaration order, `omitempty` honoured, `Extra` excluded by its
`json:"-"` tag). -/
def structEncode (o : EnvG) : String :=
  render (JValue.obj (marshalCoreFields o))

/-- Keys of an association list, in order. -/
def keysOf (m : List (String × JValue)) : List String :=
  m.map Prod.fst

/-- Lookup in an association list (first binding wins). -/
def lookupKV (m : List (String × JValue)) (k : String) : Option JValue :=
  match m with
  | [] => none
  | (k2, v) :: rest => if k2 = k then some v else lookupKV rest k

/-- A mutator `func(*T) error` in state-passing form: on success it returns
the updated instance, on failure the error (Go discards the instance then). -/
abbrev Mutator (T ε : Type) : Type := T → Except ε T

/-- A `rpsutil.Lister[T]` argument as `Build` receives it: a nil interface
value (`opt == nil`), a non-nil interface holding a nil pointer
(`reflect.ValueOf(opt).IsNil()`), or a real provider whose `List()` returns
the given mutator slice (a nil slice entry is `none`). -/
inductive GoProvider (T ε : Type) where
  | nilIface : GoProvider T ε
  | nilPtr : GoProvider T ε
  | mk (mutators : List (Option (Mutator T ε))) : GoProvider T ε

/-- The inner loop of `rpsutil.Build`: apply one provider's mutator list in
order to the instance, skipping nil entries, returning the first error. -/
def runMutators {T ε : Type} (t : T) : List (Option (Mutator T ε)) → Except ε T
  | [] => Except.ok t
  | none :: rest => runMutators t rest
  | some setArgs :: rest =>
    match setArgs t with
    | Except.error e => Except.error e
    | Except.ok t2 => runMutators t2 rest

/-- The outer loop of `rpsutil.Build`: providers in argument order, nil
providers (both kinds) skipped via `continue`. -/
def runProviders {T ε : Type} (t : T) : List (GoProvider T ε) → Except ε T
  | [] => Except.ok t
  | GoProvider.nilIface :: rest => runProviders t rest
  | GoProvider.nilPtr :: rest => runProviders t rest
  | GoProvider.mk ms :: rest =>
    match runMutators t ms with
    | Except.error e => Except.error e
    | Except.ok t2 => runProviders t2 rest

/-- `rpsutil.Build[T](opts...)`: allocate `t := new(T)` (the zero value,
modelled by `default`) and replay every provider's mutators; `Except.ok`
models the `(t, nil)` return, `Except.error` the `(nil, err)` return. -/
def Build {T ε : Type} [Inhabited T] (opts : List (GoProvider T ε)) : Except ε T :=
  runProviders default opts

/-- The builder `httpresponse.HTTPResponseBuilder[C, D, E, T]`: its `Opts`
field is the internal slice of mutators over the envelope.  The error type of
the mutators is an arbitrary `ε` (Go's `error` interface). -/
structure HTTPResponseBuilder (ε C D E T : Type) where
  Opts : List (Option (Mutator (HTTPResponseOptions C D E T) ε))

/-- The factory `httpresponse.HTTPResponse[C, D, E, T]()`: a fresh builder
(nil `Opts` slice) to which one mutator setting `Success = true` is appended. -/
def HTTPResponse {ε C D E T : Type} : HTTPResponseBuilder ε C D E T :=
  ⟨[some (fun args => Except.ok { args with Success := true })]⟩

/-- `SetSuccess`: append one mutator assigning `Success`; return the builder. -/
def HTTPResponseBuilder.SetSuccess {ε C D E T : Type}
    (httpResponseBuilder : HTTPResponseBuilder ε C D E T) (success : Bool) :
    HTTPResponseBuilder ε C D E T :=
  { httpResponseBuilder with
    Opts := httpResponseBuilder.Opts
      ++ [some (fun args => Except.ok { args with Success := success })] }

/-- `SetMessage`: append one mutator assigning `Message`; return the builder. -/
def HTTPResponseBuilder.SetMessage {ε C D E T : Type}
    (httpResponseBuilder : HTTPResponseBuilder ε C D E T) (message : String) :
    HTTPResponseBuilder ε C D E T :=
  { httpResponseBuilder with
    Opts := httpResponseBuilder.Opts
      ++ [some (fun args => Except.ok { args with Message := message })] }

/-- `SetCode`: append one mutator assigning `Code`; return the builder. -/
def HTTPResponseBuilder.SetCode {ε C D E T : Type}
    (httpResponseBuilder : HTTPResponseBuilder ε C D E T) (code : C) :
    HTTPResponseBuilder ε C D E T :=
  { httpResponseBuilder with
    Opts := httpResponseBuilder.Opts
      ++ [some (fun args => Except.ok { args with Code := code })] }

/-- `SetData`: append one mutator assigning `Data`; return the builder. -/
def HTTPResponseBuilder.SetData {ε C D E T : Type}
    (httpResponseBuilder : HTTPResponseBuilder ε C D E T) (data : D) :
    HTTPResponseBuilder ε C D E T :=
  { httpResponseBuilder with
    Opts := httpResponseBuilder.Opts
      ++ [some (fun args => Except.ok { args with Data := data })] }

/-- `SetExtra`: append one mutator assigning `Extra`; return the builder. -/
def HTTPResponseBuilder.SetExtra {ε C D E T : Type}
    (httpResponseBuilder : HTTPResponseBuilder ε C D E T) (extra : E) :
    HTTPResponseBuilder ε C D E T :=
  { httpResponseBuilder with
    Opts := httpResponseBuilder.Opts
      ++ [some (fun args => Except.ok { args with Extra := extra })] }

/-- `SetTotal`: append one mutator assigning `Total`; return the builder. -/
def HTTPResponseBuilder.SetTotal {ε C D E T : Type}
    (httpResponseBuilder : HTTPResponseBuilder ε C D E T) (total : T) :
    HTTPResponseBuilder ε C D E T :=
  { httpResponseBuilder with
    Opts := httpResponseBuilder.Opts
      ++ [some (fun args => Except.ok { args with Total := total })] }

/-- `List()`: expose the accumulated mutator slice to the Option Applier. -/
def HTTPResponseBuilder.List {ε C D E T : Type}
    (httpResponseBuilder : HTTPResponseBuilder ε C D E T) :
    List (Option (Mutator (HTTPResponseOptions C D E T) ε)) :=
  httpResponseBuilder.Opts

/-- One fluent setter invocation on a builder, with its argument. -/
inductive SetterCall (C D E T : Type) where
  | setSuccess (b : Bool) : SetterCall C D E T
  | setMessage (s : String) : SetterCall C D E T
  | setCode (c : C) : SetterCall C D E T
  | setData (d : D) : SetterCall C D E T
  | setExtra (e : E) : SetterCall C D E T
  | setTotal (t : T) : SetterCall C D E T

/-- Perform one setter call on a builder. -/
def applyCall {ε C D E T : Type} (b : HTTPResponseBuilder ε C D E T) :
    SetterCall C D E T → HTTPResponseBuilder ε C D E T
  | SetterCall.setSuccess v => b.SetSuccess v
  | SetterCall.setMessage v => b.SetMessage v
  | SetterCall.setCode v => b.SetCode v
  | SetterCall.setData v => b.SetData v
  | SetterCall.setExtra v => b.SetExtra v
  | SetterCall.setTotal v => b.SetTotal v

/-- Perform a sequence of setter calls, left to right, on a builder. -/
def applyCalls {ε C D E T : Type} (b : HTTPResponseBuilder ε C D E T)
    (cs : List (SetterCall C D E T)) : HTTPResponseBuilder ε C D E T :=
  cs.foldl applyCall b

/-- The direct effect of one setter call on an envelope. -/
def applyCallState {C D E T : Type} (o : HTTPResponseOptions C D E T) :
    SetterCall C D E T → HTTPResponseOptions C D E T
  | SetterCall.setSuccess v => { o with Success := v }
  | SetterCall.setMessage v => { o with Message := v }
  | SetterCall.setCode v => { o with Code := v }
  | SetterCall.setData v => { o with Data := v }
  | SetterCall.setExtra v => { o with Extra := v }
  | SetterCall.setTotal v => { o with Total := v }

/-- The direct effect of a sequence of setter calls on an envelope. -/
def applyState {C D E T : Type} (o : HTTPResponseOptions C D E T)
    (cs : List (SetterCall C D E T)) : HTTPResponseOptions C D E T :=
  cs.foldl applyCallState o


/-- The argument of the last `SetSuccess` call in a call sequence, if any. -/
def lastSuccess {C D E T : Type} : List (SetterCall C D E T) → Option Bool
  | [] => none
  | c :: cs =>
    match lastSuccess cs with
    | some v => some v
    | none =>
      match c with
      | SetterCall.setSuccess v => some v
      | _ => none

/-- The argument of the last `SetMessage` call in a call sequence, if any. -/
def lastMessage {C D E T : Type} : List (SetterCall C D E T) → Option String
  | [] => none
  | c :: cs =>
    match lastMessage cs with
    | some v => some v
    | none =>
      match c with
      | SetterCall.setMessage v => some v
      | _ => none

/-- The argument of the last `SetCode` call in a call sequence, if any. -/
def lastCode {C D E T : Type} : List (SetterCall C D E T) → Option C
  | [] => none
  | c :: cs =>
    match lastCode cs with
    | some v => some v
    | none =>
      match c with
      | SetterCall.setCode v => some v
      | _ => none

/-- The argument of the last `SetData` call in a call sequence, if any. -/
def lastData {C D E T : Type} : List (SetterCall C D E T) → Option D
  | [] => none
  | c :: cs =>
    match lastData cs with
    | some v => some v
    | none =>
      match c with
      | SetterCall.setData v => some v
      | _ => none

/-- The argument of the last `SetExtra` call in a call sequence, if any. -/
def lastExtra {C D E T : Type} : List (SetterCall C D E T) → Option E
  | [] => none
  | c :: cs =>
    match lastExtra cs with
    | some v => some v
    | none =>
      match c with
      | SetterCall.setExtra v => some v
      | _ => none

/-- The argument of the last `SetTotal` call in a call sequence, if any. -/
def lastTotal {C D E T : Type} : List (SetterCall C D E T) → Option T
  | [] => none
  | c :: cs =>
    match lastTotal cs with
    | some v => some v
    | none =>
      match c with
      | SetterCall.setTotal v => some v
      | _ => none

/-- Whether a setter call is a `SetSuccess` call. -/
def isSetSuccess {C D E T : Type} : SetterCall C D E T → Bool
  | SetterCall.setSuccess _ => true
  | _ => false

/-- A mutator slice all of whose entries are non-nil mutators that succeed on
every input (as all mutators appended by the builder do). -/
def alwaysOkOpts {ε C D E T : Type}
    (l : List (Option (Mutator (HTTPResponseOptions C D E T) ε))) : Prop :=
  ∀ m ∈ l, ∃ f, m = some f ∧ ∀ a, ∃ a2, f a = Except.ok a2

/-- Example envelope: all fields at their Go zero value, `Extra` a nil map. -/
def exEnvZero : EnvG :=
  ⟨false, "", GoVal.gInt 0, GoVal.gNull, GoVal.gInt 0, none⟩

/-- Example envelope whose `Extra` map collides with the fixed key `message`. -/
def exEnvCollision : EnvG :=
  ⟨true, "original", GoVal.gInt 0, GoVal.gNull, GoVal.gInt 0,
   some [("message", GoVal.gStr "overridden")]⟩

/-- Example envelope with a non-empty code and total and an empty data field. -/
def exEnvKeys : EnvG :=
  ⟨true, "ok", GoVal.gInt 200, GoVal.gNull, GoVal.gInt 3, none⟩

/-- Example mutator over `Int` that adds five and succeeds. -/
def exMutAddFive : Mutator Int String :=
  fun t => Except.ok (t + 5)

/-- Example mutator over `Int` that adds one and succeeds. -/
def exMutAddOne : Mutator Int String :=
  fun t => Except.ok (t + 1)

/-- Example mutator that always fails with the error message `boom`. -/
def exMutFail : Mutator Int String :=
  fun _ => Except.error "boom"

/-- Example setter-call sequence: two `SetMessage` calls and a `SetCode` call. -/
def exCalls : List (SetterCall Int String GoExtra Int) :=
  [SetterCall.setMessage "first", SetterCall.setCode 7,
   SetterCall.setMessage "second", SetterCall.setTotal 3]

/-- Example setter-call sequence that never calls `SetSuccess`. -/
def exCallsNoSuccess : List (SetterCall Int String GoExtra Int) :=
  [SetterCall.setMessage "hello", SetterCall.setCode 9]


theorem insertSortedKV_perm (p : String × JValue) (l : List (String × JValue)) :
    (insertSortedKV p l).Perm (p :: l) := by
  induction l with
  | nil => exact List.Perm.refl _
  | cons q rest ih =>
    by_cases h : strLe p.1 q.1 = true
    · simp [insertSortedKV, h]
    · simp only [insertSortedKV, if_neg h]
      exact (ih.cons q).trans (List.Perm.swap p q rest)

theorem sortKV_perm (m : List (String × JValue)) : (sortKV m).Perm m := by
  induction m with
  | nil => exact List.Perm.refl _
  | cons p rest ih =>
    exact (insertSortedKV_perm p (sortKV rest)).trans (ih.cons p)

theorem keysOf_cons (p : String × JValue) (l : List (String × JValue)) :
    keysOf (p :: l) = p.1 :: keysOf l := rfl

theorem lookupKV_eq_of_perm {m₁ m₂ : List (String × JValue)} (h : m₁.Perm m₂) :
    (keysOf m₁).Nodup → ∀ k, lookupKV m₁ k = lookupKV m₂ k := by
  induction h with
  | nil => exact fun _ _ => rfl
  | cons p h ih =>
    intro nd k
    have nd2 : (keysOf _).Nodup := (List.nodup_cons.mp (keysOf_cons p _ ▸ nd)).2
    by_cases hp : p.1 = k <;> simp [lookupKV, hp, ih nd2 k]
  | swap x y l =>
    intro nd k
    have hxy : y.1 ≠ x.1 := by
      have hm := (List.nodup_cons.mp (keysOf_cons y _ ▸ nd)).1
      intro heq
      exact hm (heq ▸ List.Mem.head _)
    by_cases hy : y.1 = k
    · by_cases hx : x.1 = k
      · exact absurd (hy.trans hx.symm) hxy
      · simp [lookupKV, hy, hx]
    · by_cases hx : x.1 = k
      · simp [lookupKV, hy, hx]
      · simp [lookupKV, hy, hx]
  | trans h₁ h₂ ih₁ ih₂ =>
    intro nd k
    have nd2 : (keysOf _).Nodup := ((h₁.map Prod.fst).nodup_iff).mp nd
    exact (ih₁ nd k).trans (ih₂ nd2 k)

theorem lookupKV_insertKV_self (m : List (String × JValue)) (k : String) (v : JValue) :
    lookupKV (insertKV m k v) k = some v := by
  induction m with
  | nil => simp [insertKV, lookupKV]
  | cons p rest ih =>
    obtain ⟨k2, v2⟩ := p
    by_cases h : k2 = k
    · simp [insertKV, h, lookupKV]
    · simp [insertKV, h, lookupKV, ih]

theorem lookupKV_insertKV_ne (m : List (String × JValue)) (k2 k : String) (v : JValue)
    (h : k2 ≠ k) : lookupKV (insertKV m k2 v) k = lookupKV m k := by
  induction m with
  | nil => simp [insertKV, lookupKV, h]
  | cons p rest ih =>
    obtain ⟨k3, v3⟩ := p
    by_cases h3 : k3 = k2
    · subst h3
      simp [insertKV, lookupKV, h]
    · by_cases hk : k3 = k
      · simp [insertKV, h3, lookupKV, hk, Ne.symm h]
      · simp [insertKV, h3, lookupKV, hk, ih]

theorem mem_keysOf_insertKV (m : List (String × JValue)) (k2 : String) (v : JValue)
    (k : String) : k ∈ keysOf (insertKV m k2 v) ↔ (k = k2 ∨ k ∈ keysOf m) := by
  induction m with
  | nil => simp [insertKV, keysOf]
  | cons p rest ih =>
    obtain ⟨k3, v3⟩ := p
    by_cases h3 : k3 = k2
    · subst h3
      simp [insertKV, keysOf]
    · simp [insertKV, h3, keysOf] at ih ⊢
      tauto

theorem keysOf_insertKV_nodup (m : List (String × JValue)) (k : String) (v : JValue)
    (nd : (keysOf m).Nodup) : (keysOf (insertKV m k v)).Nodup := by
  induction m with
  | nil => simp [insertKV, keysOf]
  | cons p rest ih =>
    obtain ⟨k3, v3⟩ := p
    rw [keysOf_cons] at nd
    obtain ⟨hnotin, ndrest⟩ := List.nodup_cons.mp nd
    by_cases h3 : k3 = k
    · subst h3
      rw [show insertKV ((k3, v3) :: rest) k3 v = (k3, v) :: rest by simp [insertKV],
        keysOf_cons]
      exact List.nodup_cons.mpr ⟨hnotin, ndrest⟩
    · rw [show insertKV ((k3, v3) :: rest) k v = (k3, v3) :: insertKV rest k v by
        simp [insertKV, h3], keysOf_cons]
      refine List.nodup_cons.mpr ⟨?_, ih ndrest⟩
      intro hmem
      rcases (mem_keysOf_insertKV rest k v k3).mp hmem with heq | hmem2
      · exact h3 heq
      · exact hnotin hmem2

theorem lookupKV_mergeFold_not_mem (ex : List (String × GoVal))
    (m : List (String × JValue)) (k : String) (h : k ∉ ex.map Prod.fst) :
    lookupKV (ex.foldl (fun m2 kv => insertKV m2 kv.1 (encodeGoVal kv.2)) m) k
      = lookupKV m k := by
  induction ex generalizing m with
  | nil => rfl
  | cons kv rest ih =>
    have hk : kv.1 ≠ k := by
      intro heq
      exact h (heq ▸ List.mem_map_of_mem Prod.fst (List.Mem.head _))
    have hrest : k ∉ rest.map Prod.fst := by
      intro hmem
      exact h (List.mem_cons_of_mem _ hmem)
    rw [List.foldl_cons, ih _ hrest, lookupKV_insertKV_ne _ _ _ _ hk]

theorem lookupKV_mergeExtra_mem (ex : List (String × GoVal))
    (m : List (String × JValue)) (k : String) (v : GoVal)
    (nd : (ex.map Prod.fst).Nodup) (hmem : (k, v) ∈ ex) :
    lookupKV (mergeExtra m (some ex)) k = some (encodeGoVal v) := by
  induction ex generalizing m with
  | nil => cases hmem
  | cons kv rest ih =>
    rw [List.map_cons] at nd
    obtain ⟨hnotin, ndrest⟩ := List.nodup_cons.mp nd
    rcases List.mem_cons.mp hmem with heq | hmem2
    · cases heq
      show lookupKV (rest.foldl _ (insertKV m k (encodeGoVal v))) k = _
      rw [lookupKV_mergeFold_not_mem rest _ k hnotin, lookupKV_insertKV_self]
    · exact ih (insertKV m kv.1 (encodeGoVal kv.2)) ndrest hmem2

theorem mergeFold_keys_nodup (ex : List (String × GoVal))
    (m : List (String × JValue)) (nd : (keysOf m).Nodup) :
    (keysOf (ex.foldl (fun m2 kv => insertKV m2 kv.1 (encodeGoVal kv.2)) m)).Nodup := by
  induction ex generalizing m with
  | nil => exact nd
  | cons kv rest ih =>
    exact ih _ (keysOf_insertKV_nodup _ _ _ nd)

theorem marshalCoreFields_keys_nodup (o : EnvG) : (keysOf (marshalCoreFields o)).Nodup := by
  cases hc : goIsEmpty o.Code <;> cases hd : goIsEmpty o.Data <;>
    cases ht : goIsEmpty o.Total <;>
      simp [marshalCoreFields, keysOf, hc, hd, ht]

theorem runMutators_append {T ε : Type} (l₁ l₂ : List (Option (Mutator T ε))) (t : T) :
    runMutators t (l₁ ++ l₂) =
      match runMutators t l₁ with
      | Except.error e => Except.error e
      | Except.ok t2 => runMutators t2 l₂ := by
  induction l₁ generalizing t with
  | nil => rfl
  | cons m rest ih =>
    cases m with
    | none => simpa [runMutators] using ih t
    | some f =>
      simp only [List.cons_append, runMutators]
      cases hft : f t with
      | error e => rfl
      | ok t2 => exact ih t2

theorem runProviders_append {T ε : Type} (l₁ l₂ : List (GoProvider T ε)) (t : T) :
    runProviders t (l₁ ++ l₂) =
      match runProviders t l₁ with
      | Except.error e => Except.error e
      | Except.ok t2 => runProviders t2 l₂ := by
  induction l₁ generalizing t with
  | nil => rfl
  | cons p rest ih =>
    cases p with
    | nilIface => simpa [runProviders] using ih t
    | nilPtr => simpa [runProviders] using ih t
    | mk ms =>
      simp only [List.cons_append, runProviders]
      cases hms : runMutators t ms with
      | error e => rfl
      | ok t2 => exact ih t2

theorem applyCall_Opts {ε C D E T : Type} (b : HTTPResponseBuilder ε C D E T)
    (c : SetterCall C D E T) :
    (applyCall b c).Opts
      = b.Opts ++ [some (fun args => Except.ok (applyCallState args c))] := by
  cases c <;> rfl

theorem runMutators_applyCalls {ε C D E T : Type} (cs : List (SetterCall C D E T))
    (b : HTTPResponseBuilder ε C D E T) (t : HTTPResponseOptions C D E T) :
    runMutators t (applyCalls b cs).Opts =
      match runMutators t b.Opts with
      | Except.error e => Except.error e
      | Except.ok t2 => Except.ok (applyState t2 cs) := by
  induction cs generalizing b t with
  | nil =>
    cases h : runMutators t b.Opts with
    | error e => exact h
    | ok t2 => exact h
  | cons c cs ih =>
    rw [show applyCalls b (c :: cs) = applyCalls (applyCall b c) cs from rfl, ih,
      applyCall_Opts, runMutators_append]
    cases h : runMutators t b.Opts with
    | error e => rfl
    | ok t2 => rfl

theorem applyState_Success {C D E T : Type} (o : HTTPResponseOptions C D E T)
    (cs : List (SetterCall C D E T)) :
    (applyState o cs).Success = (lastSuccess cs).getD o.Success := by
  induction cs generalizing o with
  | nil => rfl
  | cons c cs ih =>
    show (applyState (applyCallState o c) cs).Success = _
    rw [ih]
    cases h : lastSuccess cs with
    | some v => simp [lastSuccess, h]
    | none => cases c <;> simp [lastSuccess, h, applyCallState]

theorem applyState_Message {C D E T : Type} (o : HTTPResponseOptions C D E T)
    (cs : List (SetterCall C D E T)) :
    (applyState o cs).Message = (lastMessage cs).getD o.Message := by
  induction cs generalizing o with
  | nil => rfl
  | cons c cs ih =>
    show (applyState (applyCallState o c) cs).Message = _
    rw [ih]
    cases h : lastMessage cs with
    | some v => simp [lastMessage, h]
    | none => cases c <;> simp [lastMessage, h, applyCallState]

theorem applyState_Code {C D E T : Type} (o : HTTPResponseOptions C D E T)
    (cs : List (SetterCall C D E T)) :
    (applyState o cs).Code = (lastCode cs).getD o.Code := by
  induction cs generalizing o with
  | nil => rfl
  | cons c cs ih =>
    show (applyState (applyCallState o c) cs).Code = _
    rw [ih]
    cases h : lastCode cs with
    | some v => simp [lastCode, h]
    | none => cases c <;> simp [lastCode, h, applyCallState]

theorem applyState_Data {C D E T : Type} (o : HTTPResponseOptions C D E T)
    (cs : List (SetterCall C D E T)) :
    (applyState o cs).Data = (lastData cs).getD o.Data := by
  induction cs generalizing o with
  | nil => rfl
  | cons c cs ih =>
    show (applyState (applyCallState o c) cs).Data = _
    rw [ih]
    cases h : lastData cs with
    | some v => simp [lastData, h]
    | none => cases c <;> simp [lastData, h, applyCallState]

theorem applyState_Extra {C D E T : Type} (o : HTTPResponseOptions C D E T)
    (cs : List (SetterCall C D E T)) :
    (applyState o cs).Extra = (lastExtra cs).getD o.Extra := by
  induction cs generalizing o with
  | nil => rfl
  | cons c cs ih =>
    show (applyState (applyCallState o c) cs).Extra = _
    rw [ih]
    cases h : lastExtra cs with
    | some v => simp [lastExtra, h]
    | none => cases c <;> simp [lastExtra, h, applyCallState]

theorem applyState_Total {C D E T : Type} (o : HTTPResponseOptions C D E T)
    (cs : List (SetterCall C D E T)) :
    (applyState o cs).Total = (lastTotal cs).getD o.Total := by
  induction cs generalizing o with
  | nil => rfl
  | cons c cs ih =>
    show (applyState (applyCallState o c) cs).Total = _
    rw [ih]
    cases h : lastTotal cs with
    | some v => simp [lastTotal, h]
    | none => cases c <;> simp [lastTotal, h, applyCallState]

theorem lastSuccess_eq_none {C D E T : Type} (cs : List (SetterCall C D E T))
    (h : ∀ c ∈ cs, isSetSuccess c = false) : lastSuccess cs = none := by
  induction cs with
  | nil => rfl
  | cons c cs ih =>
    have hc : isSetSuccess c = false := h c (List.Mem.head _)
    have hrest := ih (fun c2 hc2 => h c2 (List.mem_cons_of_mem _ hc2))
    cases c <;> simp [lastSuccess, hrest, isSetSuccess] at hc ⊢

theorem alwaysOkOpts_HTTPResponse {ε C D E T : Type} :
    alwaysOkOpts (@HTTPResponse ε C D E T).Opts := by
  intro m hm
  rcases List.mem_singleton.mp hm with rfl
  exact ⟨_, rfl, fun a => ⟨_, rfl⟩⟩

theorem alwaysOkOpts_applyCalls {ε C D E T : Type} (cs : List (SetterCall C D E T))
    (b : HTTPResponseBuilder ε C D E T) (hb : alwaysOkOpts b.Opts) :
    alwaysOkOpts (applyCalls b cs).Opts := by
  induction cs generalizing b with
  | nil => exact hb
  | cons c cs ih =>
    refine ih (applyCall b c) ?_
    rw [applyCall_Opts]
    intro m hm
    rcases List.mem_append.mp hm with h1 | h2
    · exact hb m h1
    · rcases List.mem_singleton.mp h2 with rfl
      exact ⟨_, rfl, fun a => ⟨_, rfl⟩⟩

theorem runMutators_ok_of_alwaysOk {ε C D E T : Type}
    (l : List (Option (Mutator (HTTPResponseOptions C D E T) ε))) :
    alwaysOkOpts l → ∀ t, ∃ t2, runMutators t l = Except.ok t2 := by
  induction l with
  | nil => exact fun _ t => ⟨t, rfl⟩
  | cons m rest ih =>
    intro hl t
    have hrest : alwaysOkOpts rest := fun m2 hm2 => hl m2 (List.mem_cons_of_mem _ hm2)
    rcases hl m (List.Mem.head _) with ⟨f, rfl, hf⟩
    rcases hf t with ⟨a2, ha2⟩
    rcases ih hrest a2 with ⟨t3, ht3⟩
    refine ⟨t3, ?_⟩
    rw [runMutators, ha2]
    exact ht3

theorem runProviders_ok_of_alwaysOk {ε C D E T : Type}
    (ps : List (GoProvider (HTTPResponseOptions C D E T) ε)) :
    (∀ p ∈ ps, ∃ l, p = GoProvider.mk l ∧ alwaysOkOpts l) →
      ∀ t, ∃ t2, runProviders t ps = Except.ok t2 := by
  induction ps with
  | nil => exact fun _ t => ⟨t, rfl⟩
  | cons p rest ih =>
    intro hp t
    have hrest := fun p2 hp2 => hp p2 (List.mem_cons_of_mem _ hp2)
    rcases hp p (List.Mem.head _) with ⟨l, rfl, hl⟩
    rcases runMutators_ok_of_alwaysOk l hl t with ⟨t2, ht2⟩
    rcases ih hrest t2 with ⟨t3, ht3⟩
    refine ⟨t3, ?_⟩
    rw [runProviders, ht2]
    exact ht3

theorem Build_applyCalls {ε C D E T : Type}
    [Inhabited C] [Inhabited D] [Inhabited E] [Inhabited T]
    (cs : List (SetterCall C D E T)) :
    Build [GoProvider.mk (HTTPResponseBuilder.List (applyCalls (@HTTPResponse ε C D E T) cs))]
      = Except.ok (⟨(lastSuccess cs).getD true, (lastMessage cs).getD "",
          (lastCode cs).getD default, (lastData cs).getD default,
          (lastTotal cs).getD default, (lastExtra cs).getD default⟩ :
          HTTPResponseOptions C D E T) := by
  have h0 : runMutators (default : HTTPResponseOptions C D E T) (@HTTPResponse ε C D E T).Opts
      = Except.ok (⟨true, "", default, default, default, default⟩ :
          HTTPResponseOptions C D E T) := rfl
  have hrun : runMutators (default : HTTPResponseOptions C D E T)
        (applyCalls (@HTTPResponse ε C D E T) cs).Opts
      = Except.ok (applyState (⟨true, "", default, default, default, default⟩ :
          HTTPResponseOptions C D E T) cs) := by
    rw [runMutators_applyCalls, h0]
  simp only [Build, HTTPResponseBuilder.List, runProviders, hrun]
  refine congrArg Except.ok ?_
  have heta : applyState (⟨true, "", default, default, default, default⟩ :
        HTTPResponseOptions C D E T) cs
      = (⟨(applyState (⟨true, "", default, default, default, default⟩ :
            HTTPResponseOptions C D E T) cs).Success,
          (applyState (⟨true, "", default, default, default, default⟩ :
            HTTPResponseOptions C D E T) cs).Message,
          (applyState (⟨true, "", default, default, default, default⟩ :
            HTTPResponseOptions C D E T) cs).Code,
          (applyState (⟨true, "", default, default, default, default⟩ :
            HTTPResponseOptions C D E T) cs).Data,
          (applyState (⟨true, "", default, default, default, default⟩ :
            HTTPResponseOptions C D E T) cs).Total,
          (applyState (⟨true, "", default, default, default, default⟩ :
            HTTPResponseOptions C D E T) cs).Extra⟩ :
          HTTPResponseOptions C D E T) := rfl
  rw [heta, applyState_Success, applyState_Message, applyState_Code, applyState_Data,
    applyState_Total, applyState_Extra]

theorem keysOf_jnormKVs (m : List (String × JValue)) : keysOf (jnormKVs m) = keysOf m := by
  induction m with
  | nil => rfl
  | cons p rest ih =>
    obtain ⟨k, v⟩ := p
    simp [jnormKVs, keysOf] at ih ⊢
    exact ih

/-- C1: if the envelope's extra-metadata map contains a key equal to a fixed
field's serialized name, the object produced by `MarshalJSON` maps that key to
the extra-metadata value (extra is merged after the fixed-field pass and
overwrites). -/
theorem marshal_extra_overrides_fixed (o : EnvG) (ex : List (String × GoVal))
    (k : String) (v : GoVal)
    (hex : o.Extra = some ex) (nd : (ex.map Prod.fst).Nodup)
    (hmem : (k, v) ∈ ex)
    (_hfixed : k ∈ ["success", "message", "code", "data", "total"]) :
    lookupKV (marshalOutputFields o) k = some (encodeGoVal v) := by
  have ndcore := marshalCoreFields_keys_nodup o
  have ndrm : (keysOf (jnormKVs (marshalCoreFields o))).Nodup := by
    rw [keysOf_jnormKVs]
    exact ndcore
  have ndmerged : (keysOf (mergeExtra (jnormKVs (marshalCoreFields o)) o.Extra)).Nodup := by
    rw [hex]
    exact mergeFold_keys_nodup ex _ ndrm
  have hperm := sortKV_perm (mergeExtra (jnormKVs (marshalCoreFields o)) o.Extra)
  have ndsorted :
      (keysOf (sortKV (mergeExtra (jnormKVs (marshalCoreFields o)) o.Extra))).Nodup :=
    ((hperm.map Prod.fst).nodup_iff).mpr ndmerged
  rw [marshalOutputFields, lookupKV_eq_of_perm hperm ndsorted k, hex]
  exact lookupKV_mergeExtra_mem ex _ k v nd hmem

/-- Witness for C1 at a concrete envelope whose extra map overrides
the fixed `message` field. -/
theorem marshal_extra_overrides_fixed_witness :
    exEnvCollision.Extra = some [("message", GoVal.gStr "overridden")] ∧
    ("message", GoVal.gStr "overridden") ∈ [("message", GoVal.gStr "overridden")] ∧
    lookupKV (marshalOutputFields exEnvCollision) "message"
      = some (encodeGoVal (GoVal.gStr "overridden")) :=
  ⟨rfl, List.Mem.head _,
   marshal_extra_overrides_fixed exEnvCollision [("message", GoVal.gStr "overridden")]
     "message" (GoVal.gStr "overridden") rfl (by decide) (List.Mem.head _) (by decide)⟩

/-- C2 (counterexample): with nil extra metadata the bytes returned by
`MarshalJSON` are NOT byte-for-byte equal to the plain structural fixed-field
encoding: the merged map is re-marshalled with its keys sorted, so `message`
precedes `success`, while the struct encoding emits `success` first. -/
theorem marshal_empty_extra_not_byte_identical :
    exEnvZero.Extra = none ∧ MarshalJSON exEnvZero ≠ structEncode exEnvZero := by
  have h1 : MarshalJSON exEnvZero = "\x7b\"message\":\"\",\"success\":false\x7d" := rfl
  have h2 : structEncode exEnvZero = "\x7b\"success\":false,\"message\":\"\"\x7d" := rfl
  refine ⟨rfl, ?_⟩
  rw [h1, h2]
  decide

/-- C2 (amended): for every envelope whose extra-metadata map is nil or empty,
the merge path contributes nothing: the output object is exactly the
fixed-field encoding as re-emitted by the decode/re-encode pass — no keys
added, no nested empty object, the key set identical to the fixed-field
encoding's.  The bytes are not the plain structural encoding: the re-encode
pass emits every object's keys (top-level and nested) in sorted order and
passes every number through `float64`, rounding integers beyond `2 ^ 53`. -/
theorem marshal_empty_extra_merge_noop (o : EnvG)
    (h : o.Extra = none ∨ o.Extra = some []) :
    marshalOutputFields o = sortKV (jnormKVs (marshalCoreFields o)) ∧
    (marshalOutputFields o).Perm (jnormKVs (marshalCoreFields o)) ∧
    (keysOf (marshalOutputFields o)).Perm (keysOf (marshalCoreFields o)) := by
  have hm : mergeExtra (jnormKVs (marshalCoreFields o)) o.Extra
      = jnormKVs (marshalCoreFields o) := by
    rcases h with h | h <;> rw [h] <;> rfl
  have hout : marshalOutputFields o = sortKV (jnormKVs (marshalCoreFields o)) := by
    rw [marshalOutputFields, hm]
  refine ⟨hout, ?_, ?_⟩
  · rw [hout]
    exact sortKV_perm _
  · rw [hout]
    have hkeys : (keysOf (sortKV (jnormKVs (marshalCoreFields o)))).Perm
        (keysOf (jnormKVs (marshalCoreFields o))) :=
      (sortKV_perm _).map Prod.fst
    rw [keysOf_jnormKVs] at hkeys
    exact hkeys

/-- Witness for the amended C2 at a concrete all-default envelope. -/
theorem marshal_empty_extra_merge_noop_witness :
    exEnvZero.Extra = none ∧
    (marshalOutputFields exEnvZero = sortKV (jnormKVs (marshalCoreFields exEnvZero)) ∧
      (marshalOutputFields exEnvZero).Perm (jnormKVs (marshalCoreFields exEnvZero)) ∧
      (keysOf (marshalOutputFields exEnvZero)).Perm (keysOf (marshalCoreFields exEnvZero))) :=
  ⟨rfl, marshal_empty_extra_merge_noop exEnvZero (Or.inl rfl)⟩

/-- C4: with nil or empty extra metadata, the serialized object's key set is
exactly `success` and `message` plus `code`, `data` and `total`, each of the
latter present if and only if the corresponding field is non-empty in the
sense of Go's `omitempty`. -/
theorem marshal_keys_iff (o : EnvG) (k : String)
    (h : o.Extra = none ∨ o.Extra = some []) :
    k ∈ keysOf (marshalOutputFields o) ↔
      (k = "success" ∨ k = "message" ∨
        (k = "code" ∧ goIsEmpty o.Code = false) ∨
        (k = "data" ∧ goIsEmpty o.Data = false) ∨
        (k = "total" ∧ goIsEmpty o.Total = false)) := by
  have hm : mergeExtra (jnormKVs (marshalCoreFields o)) o.Extra
      = jnormKVs (marshalCoreFields o) := by
    rcases h with h | h <;> rw [h] <;> rfl
  rw [marshalOutputFields, hm]
  have hperm : (keysOf (sortKV (jnormKVs (marshalCoreFields o)))).Perm
      (keysOf (marshalCoreFields o)) := by
    have hp := (sortKV_perm (jnormKVs (marshalCoreFields o))).map Prod.fst
    rw [show List.map Prod.fst (jnormKVs (marshalCoreFields o))
      = keysOf (marshalCoreFields o) from keysOf_jnormKVs _] at hp
    exact hp
  rw [hperm.mem_iff]
  cases hc : goIsEmpty o.Code <;> cases hd : goIsEmpty o.Data <;>
    cases ht : goIsEmpty o.Total <;>
      simp [marshalCoreFields, keysOf, hc, hd, ht]

/-- Witness for C4 at a concrete envelope with non-empty code and total and
an empty data field, checked at the key `data`. -/
theorem marshal_keys_iff_witness :
    exEnvKeys.Extra = none ∧
    ("data" ∈ keysOf (marshalOutputFields exEnvKeys) ↔
      ("data" = "success" ∨ "data" = "message" ∨
        ("data" = "code" ∧ goIsEmpty exEnvKeys.Code = false) ∨
        ("data" = "data" ∧ goIsEmpty exEnvKeys.Data = false) ∨
        ("data" = "total" ∧ goIsEmpty exEnvKeys.Total = false))) :=
  ⟨rfl, marshal_keys_iff exEnvKeys "data" (Or.inl rfl)⟩

/-- C10: `MarshalJSON` never modifies the envelope it serializes: the receiver
state after the call equals the receiver state before it. -/
theorem marshalJSON_preserves_receiver (o : EnvG) : (MarshalJSONw o).2 = o := rfl

/-- C3: when the providers' concatenated mutator list reaches a failing
mutator, `Build` returns no instance but exactly that mutator's error, and
the result does not depend on the mutators or providers that follow (they are
never invoked); the partially mutated instance is discarded. -/
theorem build_short_circuits_on_failure {T ε : Type} [Inhabited T]
    (preProv post : List (GoProvider T ε)) (pre suf : List (Option (Mutator T ε)))
    (m : Mutator T ε) (t t2 : T) (e : ε)
    (h1 : runProviders (default : T) preProv = Except.ok t)
    (h2 : runMutators t pre = Except.ok t2)
    (h3 : m t2 = Except.error e) :
    Build (preProv ++ GoProvider.mk (pre ++ some m :: suf) :: post)
      = Except.error e := by
  show runProviders (default : T) _ = _
  rw [runProviders_append, h1]
  show (match runMutators t (pre ++ some m :: suf) with
    | Except.error e => Except.error e
    | Except.ok t3 => runProviders t3 post) = _
  rw [runMutators_append, h2]
  show (match runMutators t2 (some m :: suf) with
    | Except.error e => Except.error e
    | Except.ok t3 => runProviders t3 post) = _
  rw [runMutators, h3]

/-- Witness for C3: a provider whose second mutator fails with `boom`; the
build returns that error although a further mutator follows. -/
theorem build_short_circuits_on_failure_witness :
    runProviders (default : Int) ([] : List (GoProvider Int String)) = Except.ok 0 ∧
    runMutators (0 : Int) [some exMutAddFive] = Except.ok 5 ∧
    exMutFail 5 = Except.error "boom" ∧
    Build ([GoProvider.mk [some exMutAddFive, some exMutFail, some exMutAddOne]] :
        List (GoProvider Int String)) = Except.error "boom" :=
  ⟨rfl, rfl, rfl,
   build_short_circuits_on_failure [] [] [some exMutAddFive] [some exMutAddOne]
     exMutFail 0 5 "boom" rfl rfl rfl⟩

/-- C5: for every sequence of setter calls on a builder followed by `Build`,
each field of the resulting envelope equals the argument of the last setter
call for that field; fields never set keep their zero value, except `Success`,
which is `true` when never explicitly set. -/
theorem build_builder_last_write_wins {ε C D E T : Type}
    [Inhabited C] [Inhabited D] [Inhabited E] [Inhabited T]
    (cs : List (SetterCall C D E T)) :
    Build [GoProvider.mk (HTTPResponseBuilder.List (applyCalls (@HTTPResponse ε C D E T) cs))]
      = Except.ok (⟨(lastSuccess cs).getD true, (lastMessage cs).getD "",
          (lastCode cs).getD default, (lastData cs).getD default,
          (lastTotal cs).getD default, (lastExtra cs).getD default⟩ :
          HTTPResponseOptions C D E T) :=
  Build_applyCalls cs

/-- C6: the zero-argument factory seeds the mutator list with exactly one
entry setting `Success = true`, so a build whose call chain never invokes
`SetSuccess` yields an envelope with `Success = true`. -/
theorem httpresponse_seeds_default_success {ε C D E T : Type}
    [Inhabited C] [Inhabited D] [Inhabited E] [Inhabited T]
    (cs : List (SetterCall C D E T)) (h : ∀ c ∈ cs, isSetSuccess c = false) :
    (∃ f, (@HTTPResponse ε C D E T).Opts = [some f] ∧
      ∀ a, f a = Except.ok { a with Success := true }) ∧
    (Build [GoProvider.mk (HTTPResponseBuilder.List
          (applyCalls (@HTTPResponse ε C D E T) cs))]).map
        (fun r => r.Success)
      = Except.ok true := by
  refine ⟨⟨_, rfl, fun a => rfl⟩, ?_⟩
  rw [Build_applyCalls cs, lastSuccess_eq_none cs h]
  rfl

/-- Witness for C6: a call chain that never calls `SetSuccess` builds an
envelope with `Success = true`. -/
theorem httpresponse_seeds_default_success_witness :
    (∀ c ∈ exCallsNoSuccess, isSetSuccess c = false) ∧
    (Build [GoProvider.mk (HTTPResponseBuilder.List
          (applyCalls (@HTTPResponse String Int String GoExtra Int) exCallsNoSuccess))]).map
        (fun r => r.Success)
      = Except.ok true :=
  ⟨by decide,
   (httpresponse_seeds_default_success exCallsNoSuccess (by decide)).2⟩

/-- C7: a nil provider — a nil interface value or an interface holding a nil
pointer — is skipped without error, so the build result equals that of the
same call with the provider omitted; a nil mutator entry inside a provider's
list is likewise a silent no-op. -/
theorem build_skips_nil_providers_and_mutators {T ε : Type} [Inhabited T]
    (pre post : List (GoProvider T ε)) (ms1 ms2 : List (Option (Mutator T ε))) :
    Build (pre ++ GoProvider.nilIface :: post) = Build (pre ++ post) ∧
    Build (pre ++ GoProvider.nilPtr :: post) = Build (pre ++ post) ∧
    Build (pre ++ GoProvider.mk (ms1 ++ none :: ms2) :: post)
      = Build (pre ++ GoProvider.mk (ms1 ++ ms2) :: post) := by
  refine ⟨?_, ?_, ?_⟩
  · show runProviders (default : T) _ = runProviders (default : T) _
    rw [runProviders_append, runProviders_append]
    cases runProviders (default : T) pre with
    | error e => rfl
    | ok t => rfl
  · show runProviders (default : T) _ = runProviders (default : T) _
    rw [runProviders_append, runProviders_append]
    cases runProviders (default : T) pre with
    | error e => rfl
    | ok t => rfl
  · show runProviders (default : T) _ = runProviders (default : T) _
    rw [runProviders_append, runProviders_append]
    cases runProviders (default : T) pre with
    | error e => rfl
    | ok t =>
      simp only [runProviders, runMutators_append]
      cases runMutators t ms1 with
      | error e => rfl
      | ok t2 => rfl

/-- C8: `Build`, called with zero providers, returns a pointer to a
zero-valued instance of the target type and a nil error. -/
theorem build_no_providers_returns_zero {T ε : Type} [Inhabited T] :
    Build ([] : List (GoProvider T ε)) = Except.ok (default : T) := rfl

/-- C9: every mutator a builder accumulates (the factory's seed and each
setter's) succeeds on every input, so a build whose providers all arise from
builder call chains never takes the error branch: it returns an instance and
a nil error. -/
theorem build_builders_never_fail {ε C D E T : Type}
    [Inhabited C] [Inhabited D] [Inhabited E] [Inhabited T]
    (bss : List (List (SetterCall C D E T))) :
    (∀ cs ∈ bss, alwaysOkOpts (applyCalls (@HTTPResponse ε C D E T) cs).Opts) ∧
    ∃ r, Build (bss.map (fun cs => GoProvider.mk
        (HTTPResponseBuilder.List (applyCalls (@HTTPResponse ε C D E T) cs))))
      = Except.ok r := by
  refine ⟨fun cs _ => alwaysOkOpts_applyCalls cs _ alwaysOkOpts_HTTPResponse, ?_⟩
  refine runProviders_ok_of_alwaysOk _ ?_ default
  intro p hp
  rcases List.mem_map.mp hp with ⟨cs, _, rfl⟩
  exact ⟨_, rfl, alwaysOkOpts_applyCalls cs _ alwaysOkOpts_HTTPResponse⟩
